import Mathlib

/-!
Verification development for the mdtoimage renderer.

The definitions below are a shallow embedding of the TypeScript sources:
  src/parser/index.ts       (normalizeAST, normalizeNode, normalizeInlineContent)
  src/renderer/index.ts     (renderMarkdownToImage: input loading, the auto
                             height estimator, the explicit-height bypass)
  src/highlighter/index.ts  (tokenizeCode fallback behaviour)
  src/themes/index.ts       (theme spacing tokens)

Conventions used throughout:
  - JavaScript numbers that carry fractional values (the height estimator)
    are modelled as exact rationals; integer-valued quantities are Nat or Int.
  - JavaScript string truthiness (`if (s)`) is modelled as `s ≠ ""`, number
    truthiness as `n ≠ 0`, and `undefined` as `Option.none`.
  - External collaborators (the filesystem, the Shiki highlighter) are
    passed in as explicit function parameters so that their success and
    failure modes can be quantified over.
-/

namespace MdToImage

/-- Embedding of the mdast syntax-tree nodes that the normalizer inspects.
The constructor `other` stands for any node type not handled by the
normalizer switch statements (both switches fall through to a default
branch that skips the node). `brk` is the mdast `break` node. -/
inductive MdNode where
  | text (value : String)
  | inlineCode (value : String)
  | strong (children : List MdNode)
  | emphasis (children : List MdNode)
  | link (url : String) (title : Option String) (children : List MdNode)
  | image (url : String) (alt : Option String) (title : Option String)
  | brk
  | heading (depth : Nat) (children : List MdNode)
  | paragraph (children : List MdNode)
  | code (value : String) (lang : Option String)
  | blockquote (children : List MdNode)
  | list (ordered : Bool) (startN : Option Nat) (items : List MdNode)
  | listItem (depth : Option Nat) (checked : Option Bool) (children : List MdNode)
  | thematicBreak
  | html (value : String)
  | root (children : List MdNode)
  | other (tag : String)

/-- Embedding of the NormalizedBlock interface from src/parser/index.ts.
All optional fields are Options; the optional `children` array is modelled
as a plain list (absent is the empty list, which is how every consumer in
the source reads it: `block.children?.length || 0`). -/
inductive NormalizedBlock where
  | mk (type : String) (content : Option String) (children : List NormalizedBlock)
      (level : Option Nat) (ordered : Option Bool) (startN : Option Nat)
      (language : Option String) (url : Option String) (title : Option String)
      (alt : Option String) (checked : Option Bool) (depth : Option Nat)

def NormalizedBlock.type : NormalizedBlock → String
  | .mk t _ _ _ _ _ _ _ _ _ _ _ => t

def NormalizedBlock.content : NormalizedBlock → Option String
  | .mk _ c _ _ _ _ _ _ _ _ _ _ => c

def NormalizedBlock.children : NormalizedBlock → List NormalizedBlock
  | .mk _ _ cs _ _ _ _ _ _ _ _ _ => cs

def NormalizedBlock.level : NormalizedBlock → Option Nat
  | .mk _ _ _ l _ _ _ _ _ _ _ _ => l

/-- Block pushed by the `text` flush sites of normalizeInlineContent. -/
def textBlock (content : String) : NormalizedBlock :=
  .mk "text" (some content) [] none none none none none none none none none

/-- Block pushed by the `inlineCode` case of normalizeInlineContent. -/
def inlineCodeBlock (content : String) : NormalizedBlock :=
  .mk "inlineCode" (some content) [] none none none none none none none none none

/-- Block pushed by the `strong` case of normalizeInlineContent. -/
def strongBlock (children : List NormalizedBlock) : NormalizedBlock :=
  .mk "strong" none children none none none none none none none none none

/-- Block pushed by the `emphasis` case of normalizeInlineContent. -/
def emphasisBlock (children : List NormalizedBlock) : NormalizedBlock :=
  .mk "emphasis" none children none none none none none none none none none

/-- Block pushed by the `link` case of normalizeInlineContent. -/
def linkBlock (url : String) (title : Option String)
    (children : List NormalizedBlock) : NormalizedBlock :=
  .mk "link" none children none none none none (some url) title none none none

/-- Block pushed by the `image` case of normalizeInlineContent. -/
def imageBlock (url : String) (alt : Option String) (title : Option String) :
    NormalizedBlock :=
  .mk "image" none [] none none none none (some url) title alt none none

/-- Block pushed by the `heading` case of normalizeNode; `level` is copied
from the source node depth field without modification. -/
def headingBlock (level : Nat) (children : List NormalizedBlock) : NormalizedBlock :=
  .mk "heading" none children (some level) none none none none none none none none

/-- Block pushed by the `paragraph` case of normalizeNode; note that the
paragraph text lives in `children` and `content` is left unset. -/
def paragraphBlock (children : List NormalizedBlock) : NormalizedBlock :=
  .mk "paragraph" none children none none none none none none none none none

/-- Block pushed by the `code` case of normalizeNode; the source computes
`language: code.lang || undefined`, so an empty language collapses to none. -/
def codeBlock (content : String) (lang : Option String) : NormalizedBlock :=
  .mk "code" (some content) [] none none none
    (match lang with
     | some l => if l = "" then none else some l
     | none => none)
    none none none none none

/-- Block pushed by the `blockquote` case of normalizeNode. -/
def blockquoteBlock (children : List NormalizedBlock) : NormalizedBlock :=
  .mk "blockquote" none children none none none none none none none none none

/-- Block pushed by the `list` case of normalizeNode; the source computes
`ordered: list.ordered || false` and `start: list.start || 1`. -/
def listBlock (ordered : Bool) (startN : Nat) (children : List NormalizedBlock) :
    NormalizedBlock :=
  .mk "list" none children none (some ordered) (some startN) none none none none none none

/-- Item record built inside the `list` case of normalizeNode. -/
def listItemBlock (depth : Nat) (checked : Option Bool)
    (children : List NormalizedBlock) : NormalizedBlock :=
  .mk "listItem" none children none none none none none none none checked (some depth)

/-- Block pushed by the `thematicBreak` case of normalizeNode. -/
def thematicBreakBlock : NormalizedBlock :=
  .mk "thematicBreak" none [] none none none none none none none none none

/-- JavaScript `x || d` on an optional number: undefined and 0 both give d. -/
def jsOr (o : Option Nat) (d : Nat) : Nat :=
  match o with
  | some n => if n = 0 then d else n
  | none => d

/-- The flush step of normalizeInlineContent: `if (currentText) push text`.
An empty accumulator (falsy string) is not pushed. -/
def flushText (result : List NormalizedBlock) (currentText : String) :
    List NormalizedBlock :=
  if currentText = "" then result else result ++ [textBlock currentText]

/-- Loop body of normalizeInlineContent, with the mutable `result` array and
`currentText` accumulator made explicit. The mdast `break` node appends a
newline to the accumulator; unhandled node kinds fall through to the default
branch, which neither flushes nor emits. -/
def normalizeInlineGo : List MdNode → List NormalizedBlock → String → List NormalizedBlock
  | [], result, currentText => flushText result currentText
  | .text v :: rest, result, currentText =>
      normalizeInlineGo rest result (currentText ++ v)
  | .inlineCode v :: rest, result, currentText =>
      normalizeInlineGo rest (flushText result currentText ++ [inlineCodeBlock v]) ""
  | .strong cs :: rest, result, currentText =>
      normalizeInlineGo rest
        (flushText result currentText ++ [strongBlock (normalizeInlineGo cs [] "")]) ""
  | .emphasis cs :: rest, result, currentText =>
      normalizeInlineGo rest
        (flushText result currentText ++ [emphasisBlock (normalizeInlineGo cs [] "")]) ""
  | .link url title cs :: rest, result, currentText =>
      normalizeInlineGo rest
        (flushText result currentText ++ [linkBlock url title (normalizeInlineGo cs [] "")]) ""
  | .image url alt title :: rest, result, currentText =>
      normalizeInlineGo rest
        (flushText result currentText ++ [imageBlock url alt title]) ""
  | .brk :: rest, result, currentText =>
      normalizeInlineGo rest result (currentText ++ "\n")
  | _ :: rest, result, currentText =>
      normalizeInlineGo rest result currentText

/-- normalizeInlineContent from src/parser/index.ts. -/
def normalizeInlineContent (nodes : List MdNode) : List NormalizedBlock :=
  normalizeInlineGo nodes [] ""

mutual

/-- normalizeNode from src/parser/index.ts. The blockquote case routes its
children through a synthetic root node, which amounts to normalizing the
child list; the list case maps each item to a listItem record. -/
def normalizeNode : MdNode → List NormalizedBlock
  | .heading depth children => [headingBlock depth (normalizeInlineContent children)]
  | .paragraph children => [paragraphBlock (normalizeInlineContent children)]
  | .code value lang => [codeBlock value lang]
  | .blockquote children => [blockquoteBlock (normalizeNodes children)]
  | .list ordered startN items =>
      [listBlock (ordered) (jsOr startN 1) (normalizeListItems items)]
  | .thematicBreak => [thematicBreakBlock]
  | _ => []

/-- The item mapping inside the list case of normalizeNode. In mdast the
items are always listItem nodes; the source reads `item.depth || 0`,
`item.checked` and `item.children || []` from each. -/
def normalizeListItems : List MdNode → List NormalizedBlock
  | [] => []
  | .listItem depth checked cs :: rest =>
      listItemBlock (jsOr depth 0) checked (normalizeNodes cs) :: normalizeListItems rest
  | _ :: rest => listItemBlock 0 none [] :: normalizeListItems rest

/-- The loop of normalizeAST over the children of a root node. -/
def normalizeNodes : List MdNode → List NormalizedBlock
  | [] => []
  | n :: rest => normalizeNode n ++ normalizeNodes rest

end

/-- normalizeAST from src/parser/index.ts. -/
def normalizeAST (node : MdNode) : List NormalizedBlock :=
  match node with
  | .root children => normalizeNodes children
  | _ => normalizeNode node

/-- Spacing tokens of a theme, from src/themes/index.ts. -/
structure ThemeSpacing where
  padding : Nat
  gap : Nat
  blockquotePadding : Nat
  codePadding : Nat

/-- Spacing of lightTheme (darkTheme uses the same values). -/
def lightSpacing : ThemeSpacing := ⟨40, 24, 20, 16⟩

/-- getHeadingSize from src/renderer/index.ts: the sizes table indexed by
level, with `sizes[level] || 16` for levels outside the table. -/
def getHeadingSize (level : Nat) : Nat :=
  match level with
  | 1 => 36
  | 2 => 30
  | 3 => 24
  | 4 => 20
  | 5 => 18
  | 6 => 16
  | _ => 16

/-- JavaScript truthiness test of the optional content field:
`block.content` is truthy when present and non-empty. -/
def contentTruthy (c : Option String) : Bool :=
  match c with
  | some s => s ≠ ""
  | none => false

/-- JavaScript `block.content?.length || 100`: an absent content field and an
empty string both fall back to 100. -/
def jsContentLengthOr100 (c : Option String) : Nat :=
  match c with
  | some s => if s.length = 0 then 100 else s.length
  | none => 100

/-- Per-block contribution of the auto height estimator in
renderMarkdownToImage (src/renderer/index.ts, the for-loop of the auto
branch). Accumulated JavaScript floats are modelled as exact rationals
(1.2 as 6/5 and 0.5 as 1/2). In the paragraph branch the rational division
yields 0 when charsPerLine is 0, where JavaScript would yield Infinity;
every theorem below evaluates this branch only with charsPerLine ≥ 1. -/
def blockEstimate (spacing : ThemeSpacing) (maxContentWidth : Nat)
    (b : NormalizedBlock) : ℚ :=
  if b.type = "code" ∧ contentTruthy b.content then
    let codeLines : Nat := (((b.content).getD "").splitOn "\n").length
    codeLines * 20 + spacing.codePadding * 2 + spacing.gap
  else if b.type = "heading" then
    getHeadingSize (jsOr b.level 1) * (6 / 5 : ℚ) + spacing.gap * (1 / 2 : ℚ)
  else if b.type = "paragraph" then
    let textLength : Nat := jsContentLengthOr100 b.content
    let charsPerLine : Nat := maxContentWidth / 9
    let paragraphLines : ℤ := max 1 (Int.ceil ((textLength : ℚ) / (charsPerLine : ℚ)))
    paragraphLines * 24 + spacing.gap
  else if b.type = "list" then
    let listItems : Nat := b.children.length
    listItems * 28 + spacing.gap
  else if b.type = "blockquote" then
    60 + spacing.gap
  else
    30 + spacing.gap

/-- The accumulated estimatedHeight before the watermark reserve and the
final clamp: starts at padding * 2 and adds every block contribution. -/
def accumulatedHeight (spacing : ThemeSpacing) (maxContentWidth : Nat)
    (blocks : List NormalizedBlock) : ℚ :=
  blocks.foldl (fun acc b => acc + blockEstimate spacing maxContentWidth b)
    ((spacing.padding : ℚ) * 2)

/-- The auto-mode height: watermark reserve, then
`Math.max(400, Math.min(Math.ceil(estimatedHeight), 20000))`. -/
def estimateHeight (spacing : ThemeSpacing) (maxContentWidth : Nat)
    (blocks : List NormalizedBlock) (watermark : Bool) : ℤ :=
  let est : ℚ := accumulatedHeight spacing maxContentWidth blocks +
    (if watermark then 40 else 0)
  max 400 (min (Int.ceil est) 20000)

/-- Height selection of renderMarkdownToImage: `if (options.height)` uses the
supplied height directly, otherwise the estimator runs. A supplied height of
0 is falsy in JavaScript and therefore takes the estimator branch. -/
def resolveHeight (heightOpt : Option ℤ) (spacing : ThemeSpacing)
    (maxContentWidth : Nat) (blocks : List NormalizedBlock) (watermark : Bool) : ℤ :=
  match heightOpt with
  | some h =>
      if h = 0 then estimateHeight spacing maxContentWidth blocks watermark else h
  | none => estimateHeight spacing maxContentWidth blocks watermark

/-- Token record produced by the highlighter (content plus optional color). -/
structure ThemedToken where
  content : String
  color : Option String

/-- The plain-text fallback of tokenizeCode: one single uncolored token per
newline-split line of the code. -/
def plainTokenLines (code : String) : List (List ThemedToken) :=
  (code.splitOn "\n").map fun line => [⟨line, none⟩]

/-- tokenizeCode from src/highlighter/index.ts. The Shiki call is abstracted
as the `highlighter` parameter; a `none` result models the call throwing
(unsupported language), which the source catches. An absent language and the
empty string are both falsy under the `if (!language)` guard. -/
def tokenizeCode (code : String) (language : Option String)
    (highlighter : String → String → Option (List (List ThemedToken))) :
    List (List ThemedToken) :=
  match language with
  | none => plainTokenLines code
  | some lang =>
      if lang = "" then plainTokenLines code
      else
        match highlighter lang code with
        | some tokens => tokens
        | none => plainTokenLines code

/-- Input loading of renderMarkdownToImage: `readFileSync` inside try/catch.
The filesystem is modelled as a partial map from path to content; a `none`
read models the throw, which the catch turns into using the input string
itself as the markdown source. -/
def loadMarkdownInput (fs : String → Option String) (input : String) : String :=
  match fs input with
  | some fileContent => fileContent
  | none => input

/-- Whether a normalized block is a Text block. -/
def isTextBlock (b : NormalizedBlock) : Bool :=
  b.type == "text"

/-- No two adjacent elements of the list are both Text blocks. -/
def noAdjacentTexts : List NormalizedBlock → Bool
  | [] => true
  | [_] => true
  | a :: b :: rest => (!(isTextBlock a && isTextBlock b)) && noAdjacentTexts (b :: rest)

mutual

/-- The no-adjacent-Texts condition holds in every child list of the block,
at every nesting depth. -/
def blockNoAdjacentTextsDeep : NormalizedBlock → Bool
  | .mk _ _ children _ _ _ _ _ _ _ _ _ =>
      noAdjacentTexts children && listNoAdjacentTextsDeep children

/-- blockNoAdjacentTextsDeep holds of every block in the list. -/
def listNoAdjacentTextsDeep : List NormalizedBlock → Bool
  | [] => true
  | b :: rest => blockNoAdjacentTextsDeep b && listNoAdjacentTextsDeep rest

end

/-- The inline-merge invariant over a whole normalized forest: no two
adjacent sibling Text blocks at any nesting level. -/
def forestNoAdjacentTextsDeep (bs : List NormalizedBlock) : Bool :=
  noAdjacentTexts bs && listNoAdjacentTextsDeep bs

mutual

/-- Every Text block reachable from this block has non-empty content. -/
def blockTextsNonempty : NormalizedBlock → Bool
  | .mk t c children _ _ _ _ _ _ _ _ _ =>
      (if t = "text" then
        (match c with
         | some s => s != ""
         | none => false)
       else true) && listTextsNonempty children

/-- blockTextsNonempty holds of every block in the list. -/
def listTextsNonempty : List NormalizedBlock → Bool
  | [] => true
  | b :: rest => blockTextsNonempty b && listTextsNonempty rest

end

/-- The inline node kinds given their own case by the normalizeInlineContent
switch; every other kind falls to the default branch. -/
def isHandledInlineType : MdNode → Bool
  | .text _ => true
  | .inlineCode _ => true
  | .strong _ => true
  | .emphasis _ => true
  | .link _ _ _ => true
  | .image _ _ _ => true
  | .brk => true
  | _ => false

/-- Follows the words of the spec, for comparison with estimateHeight:
clamp(x, lo, hi). -/
def clampSpec (x lo hi : ℤ) : ℤ :=
  max lo (min x hi)

/-- Follows the words of the spec, for comparison with blockEstimate: the
paragraph contribution computed from the actual character count of the
paragraph text, divided by charsPerLine = floor(contentWidthPx / 9) with a
one-line minimum, at 24px line height plus the block gap. -/
def paragraphEstimateSpec (contentWidthPx : Nat) (textLength : Nat) (blockGap : Nat) : ℚ :=
  ((max 1 (Int.ceil ((textLength : ℚ) / ((contentWidthPx / 9 : Nat) : ℚ))) : ℤ) : ℚ) * 24
    + blockGap

/-- The character data of the paragraph used as the concrete estimator
counterexample: 500 repetitions of a letter. -/
def longParagraphText : String :=
  String.mk (List.replicate 500 'a')

/-- C1 counterexample: the claim says out-of-range heading depth is clamped
into [1,6] and never propagated, but normalizeNode on a heading of depth 7
produces a Heading block whose level is exactly 7, outside [1,6]. -/
theorem claim1_counterexample :
    (normalizeNode (MdNode.heading 7 [])).map NormalizedBlock.level = [some 7] ∧
      ¬(7 ≤ 6) := by
  constructor
  · simp [normalizeNode, normalizeInlineContent, normalizeInlineGo, flushText,
      headingBlock, NormalizedBlock.level]
  · decide

/-- C1 amended: normalizeNode copies the source heading depth into the block
level verbatim, for every depth and every child list; the level lies in
[1,6] exactly when the source depth does, and out-of-range depths are
propagated rather than clamped. -/
theorem claim1_theorem (depth : Nat) (children : List MdNode) :
    (normalizeNode (MdNode.heading depth children)).map NormalizedBlock.level =
      [some depth] := by
  simp [normalizeNode, headingBlock, NormalizedBlock.level]

/-- C5: for every spacing, content width, block list and watermark setting,
the auto-mode height equals clamp(ceil(accumulatedHeight), 400, 20000),
where the accumulated height includes the watermark reserve, and therefore
always lies within [400, 20000]. -/
theorem claim5_theorem (spacing : ThemeSpacing) (mcw : Nat)
    (blocks : List NormalizedBlock) (wm : Bool) :
    estimateHeight spacing mcw blocks wm =
      clampSpec
        (Int.ceil (accumulatedHeight spacing mcw blocks + (if wm then (40 : ℚ) else 0)))
        400 20000 ∧
    400 ≤ estimateHeight spacing mcw blocks wm ∧
    estimateHeight spacing mcw blocks wm ≤ 20000 :=
  ⟨rfl, le_max_left _ _, max_le (by norm_num) (min_le_right _ _)⟩

/-- C6 counterexample: the claim says a caller-supplied height is always used
verbatim and the estimator never runs, but a supplied height of 0 is falsy
under the `if (options.height)` test, so the estimator runs and returns 400
instead of the supplied 0 (empty document, default light theme, width 1200). -/
theorem claim6_counterexample :
    resolveHeight (some 0) lightSpacing 1120 [] false = 400 ∧ (400 : ℤ) ≠ 0 := by
  constructor
  · unfold resolveHeight estimateHeight accumulatedHeight
    norm_num [lightSpacing]
  · decide

/-- C6 amended: a caller-supplied nonzero height is used verbatim, unclamped;
the estimator computes the height when no height is supplied, and also when
the supplied height is 0, which JavaScript truthiness treats as unset. -/
theorem claim6_theorem (spacing : ThemeSpacing) (mcw : Nat)
    (blocks : List NormalizedBlock) (wm : Bool) (h : ℤ) (hne : h ≠ 0) :
    resolveHeight (some h) spacing mcw blocks wm = h ∧
    resolveHeight none spacing mcw blocks wm = estimateHeight spacing mcw blocks wm ∧
    resolveHeight (some 0) spacing mcw blocks wm = estimateHeight spacing mcw blocks wm := by
  refine ⟨?_, rfl, by simp [resolveHeight]⟩
  unfold resolveHeight
  simp [hne]

/-- C6 witness: a supplied height of 777 is returned verbatim. -/
theorem claim6_witness :
    resolveHeight (some 777) lightSpacing 1120 [] false = 777 :=
  (claim6_theorem lightSpacing 1120 [] false 777 (by decide)).1

/-- C7: whenever the declared language is absent (or empty, which the falsy
test treats the same) or the highlighter fails on it, tokenizeCode returns
the plain fallback: uncolored token lines, one per newline-split line of the
code, and the failure is never propagated. -/
theorem claim7_theorem (code : String) (language : Option String)
    (highlighter : String → String → Option (List (List ThemedToken)))
    (h : language = none ∨ language = some "" ∨
      ∃ lang, language = some lang ∧ highlighter lang code = none) :
    tokenizeCode code language highlighter = plainTokenLines code ∧
    (tokenizeCode code language highlighter).length = (code.splitOn "\n").length ∧
    (tokenizeCode code language highlighter).all
      (fun line => line.all fun t => t.color == none) = true := by
  have heq : tokenizeCode code language highlighter = plainTokenLines code := by
    rcases h with h | h | ⟨lang, hl, hfail⟩
    · rw [h]; rfl
    · rw [h]; simp [tokenizeCode]
    · rw [hl]; unfold tokenizeCode
      by_cases hempty : lang = ""
      · simp [hempty]
      · simp [hempty, hfail]
  refine ⟨heq, ?_, ?_⟩
  · rw [heq]; simp [plainTokenLines]
  · rw [heq]; simp [plainTokenLines]

/-- C7 witness: a two-line snippet with an unsupported language still
tokenizes to two plain uncolored lines. -/
theorem claim7_witness :
    tokenizeCode "let x = 1\nx" (some "not-a-real-lang") (fun _ _ => none) =
      plainTokenLines "let x = 1\nx" ∧
    (tokenizeCode "let x = 1\nx" (some "not-a-real-lang") (fun _ _ => none)).length =
      ("let x = 1\nx".splitOn "\n").length ∧
    (tokenizeCode "let x = 1\nx" (some "not-a-real-lang") (fun _ _ => none)).all
      (fun line => line.all fun t => t.color == none) = true :=
  claim7_theorem "let x = 1\nx" (some "not-a-real-lang") (fun _ _ => none)
    (Or.inr (Or.inr ⟨"not-a-real-lang", rfl, rfl⟩))

/-- C8: when the input string does not name a readable file, the loader does
not fail; the input string itself becomes the markdown source. -/
theorem claim8_theorem (fs : String → Option String) (input : String)
    (h : fs input = none) :
    loadMarkdownInput fs input = input := by
  unfold loadMarkdownInput
  rw [h]

/-- C8 witness: on an empty filesystem the literal text is used as source. -/
theorem claim8_witness :
    loadMarkdownInput (fun _ => none) "# Title" = "# Title" :=
  claim8_theorem (fun _ => none) "# Title" rfl

/-- C2 counterexample: the claim says the paragraph contribution is a
function of the actual text length, but normalization stores paragraph text
in children and leaves content unset, so the estimator falls back to the
assumed 100 characters: a 500-character paragraph at content width 1120
(charsPerLine 124) contributes 1 line = 48px where the spec formula on the
actual character count gives 5 lines = 144px. -/
theorem claim2_counterexample :
    normalizeNode (MdNode.paragraph [MdNode.text longParagraphText]) =
      [paragraphBlock [textBlock longParagraphText]] ∧
    blockEstimate lightSpacing 1120 (paragraphBlock [textBlock longParagraphText]) = 48 ∧
    longParagraphText.length = 500 ∧
    paragraphEstimateSpec 1120 500 lightSpacing.gap = 144 ∧
    (48 : ℚ) ≠ 144 := by
  have hne : longParagraphText ≠ "" := by decide
  refine ⟨?_, ?_, ?_, ?_, by norm_num⟩
  · simp [normalizeNode, normalizeInlineContent, normalizeInlineGo, flushText, hne]
  · unfold blockEstimate paragraphBlock
    simp +decide [NormalizedBlock.type, NormalizedBlock.content, NormalizedBlock.children,
      NormalizedBlock.level, contentTruthy, jsContentLengthOr100]
    rw [show (⌈(100 : ℚ) / 124⌉ : ℤ) = 1 by rw [Int.ceil_eq_iff]; norm_num]
    norm_num [lightSpacing]
  · have hrepl : longParagraphText = (List.replicate 500 'a').asString := rfl
    rw [hrepl, List.length_asString, List.length_replicate]
  · unfold paragraphEstimateSpec
    rw [show ((1120 / 9 : Nat) : ℚ) = 124 by norm_num,
      show ((500 : Nat) : ℚ) = (500 : ℚ) by norm_num,
      show (⌈(500 : ℚ) / 124⌉ : ℤ) = 5 by rw [Int.ceil_eq_iff]; norm_num]
    norm_num [lightSpacing, max_def]

/-- C2 amended: normalization emits every paragraph with its text in
children and content unset, and on such a block the estimator contribution
is max(1, ceil(100 / charsPerLine)) times 24 plus the block gap, computed
from the fallback 100, independent of the actual paragraph text. -/
theorem claim2_theorem (spacing : ThemeSpacing) (mcw : Nat) (inline : List MdNode)
    (children : List NormalizedBlock) :
    normalizeNode (MdNode.paragraph inline) =
      [paragraphBlock (normalizeInlineContent inline)] ∧
    (paragraphBlock children).content = none ∧
    blockEstimate spacing mcw (paragraphBlock children) =
      ((max 1 (Int.ceil ((100 : ℚ) / ((mcw / 9 : Nat) : ℚ))) : ℤ) : ℚ) * 24
        + spacing.gap := by
  refine ⟨by simp [normalizeNode], rfl, ?_⟩
  unfold blockEstimate paragraphBlock
  simp +decide [NormalizedBlock.type, NormalizedBlock.content, NormalizedBlock.children,
    contentTruthy, jsContentLengthOr100]

/-- C4 counterexample: the claim says the watermark strictly increases the
final height by exactly 40, all else equal, but for an empty document both
estimates clamp up to the 400 minimum and the final heights are equal. -/
theorem claim4_counterexample :
    estimateHeight lightSpacing 1120 [] true = 400 ∧
    estimateHeight lightSpacing 1120 [] false = 400 ∧
    (400 : ℤ) ≠ 400 + 40 := by
  refine ⟨?_, ?_, by decide⟩ <;>
    · unfold estimateHeight accumulatedHeight
      norm_num [lightSpacing]

/-- C4 amended: the watermark reserve adds exactly 40 to the accumulated
height before the clamp, so whenever the clamp is inactive on both sides
(the no-watermark ceiling is at least 400 and the watermark ceiling is at
most 20000) the final height with watermark exceeds the one without by
exactly 40; at the clamp boundaries the difference can degenerate. -/
theorem claim4_theorem (spacing : ThemeSpacing) (mcw : Nat)
    (blocks : List NormalizedBlock)
    (h1 : 400 ≤ Int.ceil (accumulatedHeight spacing mcw blocks))
    (h2 : Int.ceil (accumulatedHeight spacing mcw blocks) + 40 ≤ 20000) :
    estimateHeight spacing mcw blocks true = estimateHeight spacing mcw blocks false + 40 := by
  have hceil : Int.ceil (accumulatedHeight spacing mcw blocks + (40 : ℚ)) =
      Int.ceil (accumulatedHeight spacing mcw blocks) + 40 := by
    rw [show (40 : ℚ) = ((40 : ℤ) : ℚ) by norm_num, Int.ceil_add_int]
  show max 400 (min (Int.ceil (accumulatedHeight spacing mcw blocks + 40)) 20000) =
    max 400 (min (Int.ceil (accumulatedHeight spacing mcw blocks + 0)) 20000) + 40
  rw [add_zero, hceil, min_eq_left h2, min_eq_left (by omega),
    max_eq_right (by omega), max_eq_right h1]

/-- One step of the inline scan on a node kind the switch does not handle:
the default branch changes neither the result nor the accumulator. -/
theorem inline_skip_step (n : MdNode) (h : isHandledInlineType n = false)
    (rest : List MdNode) (result : List NormalizedBlock) (cur : String) :
    normalizeInlineGo (n :: rest) result cur = normalizeInlineGo rest result cur := by
  cases n <;> simp_all [isHandledInlineType, normalizeInlineGo]

/-- Deleting an unhandled inline node anywhere in the scanned list leaves
the scan result unchanged, for any accumulator state. -/
theorem inline_skip (n : MdNode) (h : isHandledInlineType n = false)
    (l1 l2 : List MdNode) (result : List NormalizedBlock) (cur : String) :
    normalizeInlineGo (l1 ++ n :: l2) result cur =
      normalizeInlineGo (l1 ++ l2) result cur := by
  induction l1 generalizing result cur with
  | nil => simpa using inline_skip_step n h l2 result cur
  | cons head rest ih =>
    cases head <;> simp only [List.cons_append, normalizeInlineGo] <;> exact ih _ _

/-- C4 witness: five blockquotes accumulate to 500px, inside the clamp
range, and the watermark raises the final height from 500 to 540. -/
theorem claim4_witness :
    estimateHeight lightSpacing 1120
      [blockquoteBlock [], blockquoteBlock [], blockquoteBlock [],
        blockquoteBlock [], blockquoteBlock []] true =
    estimateHeight lightSpacing 1120
      [blockquoteBlock [], blockquoteBlock [], blockquoteBlock [],
        blockquoteBlock [], blockquoteBlock []] false + 40 :=
  claim4_theorem lightSpacing 1120 _
    (by
      unfold accumulatedHeight blockEstimate
      simp +decide [blockquoteBlock, NormalizedBlock.type, NormalizedBlock.content,
        NormalizedBlock.children, contentTruthy, lightSpacing]
      norm_num)
    (by
      unfold accumulatedHeight blockEstimate
      simp +decide [blockquoteBlock, NormalizedBlock.type, NormalizedBlock.content,
        NormalizedBlock.children, contentTruthy, lightSpacing]
      norm_num)

/-- C9: an inline node of a kind outside the handled set (text, inlineCode,
strong, emphasis, link, image, break) contributes no output block and does
not flush the pending-text accumulator, so removing it leaves the output
unchanged and plain-text runs on both sides of it merge into one Text
block. -/
theorem claim9_theorem (n : MdNode) (h : isHandledInlineType n = false)
    (l1 l2 : List MdNode) :
    normalizeInlineContent (l1 ++ n :: l2) = normalizeInlineContent (l1 ++ l2) ∧
    ∀ a b : String,
      normalizeInlineContent [MdNode.text a, n, MdNode.text b] =
        normalizeInlineContent [MdNode.text (a ++ b)] := by
  constructor
  · exact inline_skip n h l1 l2 [] ""
  · intro a b
    have h1 := inline_skip_step n h [MdNode.text b] [] a
    simp [normalizeInlineContent, normalizeInlineGo, h1, String.append_assoc]

/-- C9 witness: an html inline node between two text nodes is skipped and
the surrounding texts merge. -/
theorem claim9_witness :
    normalizeInlineContent
        [MdNode.text "foo ", MdNode.html "<span>", MdNode.text "bar"] =
      normalizeInlineContent [MdNode.text "foo ", MdNode.text "bar"] ∧
    normalizeInlineContent
        [MdNode.text "foo ", MdNode.html "<span>", MdNode.text "bar"] =
      normalizeInlineContent [MdNode.text ("foo " ++ "bar")] := by
  have h := claim9_theorem (MdNode.html "<span>") rfl
    [MdNode.text "foo "] [MdNode.text "bar"]
  exact ⟨h.1, h.2 "foo " "bar"⟩

/-- The flush step distributes over a prefix of the result array. -/
theorem flushText_append (pre post : List NormalizedBlock) (cur : String) :
    flushText (pre ++ post) cur = pre ++ flushText post cur := by
  unfold flushText
  split <;> simp

/-- The inline scan only appends to the result array, so a prefix of the
array passes through untouched. -/
theorem go_append (nodes : List MdNode) (pre post : List NormalizedBlock) (cur : String) :
    normalizeInlineGo nodes (pre ++ post) cur = pre ++ normalizeInlineGo nodes post cur := by
  induction nodes generalizing pre post cur with
  | nil => simp [normalizeInlineGo, flushText_append]
  | cons head rest ih =>
    cases head <;> simp only [normalizeInlineGo] <;>
      first
      | exact ih pre post _
      | (rw [flushText_append, List.append_assoc]; exact ih pre _ "")

/-- The inline scan equals its accumulated result followed by a fresh scan. -/
theorem go_shift (nodes : List MdNode) (result : List NormalizedBlock) (cur : String) :
    normalizeInlineGo nodes result cur = result ++ normalizeInlineGo nodes [] cur := by
  have h := go_append nodes result [] cur
  simpa using h

theorem noAdj_cons_nontext (b : NormalizedBlock) (hb : isTextBlock b = false)
    (T : List NormalizedBlock) (hT : noAdjacentTexts T = true) :
    noAdjacentTexts (b :: T) = true := by
  cases T with
  | nil => rfl
  | cons c cs =>
    simp [noAdjacentTexts, hb]
    exact hT

theorem noAdj_text_cons (t b : NormalizedBlock) (hb : isTextBlock b = false)
    (T : List NormalizedBlock) (hT : noAdjacentTexts (b :: T) = true) :
    noAdjacentTexts (t :: b :: T) = true := by
  simp [noAdjacentTexts, hb]
  exact hT

theorem listDeep_append (xs ys : List NormalizedBlock) :
    listNoAdjacentTextsDeep (xs ++ ys) =
      (listNoAdjacentTextsDeep xs && listNoAdjacentTextsDeep ys) := by
  induction xs with
  | nil => simp [listNoAdjacentTextsDeep]
  | cons b rest ih => simp [listNoAdjacentTextsDeep, ih, Bool.and_assoc]

/-- A flushed text segment followed by a non-Text block and a good tail
keeps both adjacency properties: the flush emits at most one Text block and
it is immediately followed by the non-Text block. -/
theorem seg_props (blk : NormalizedBlock) (cur : String) (T : List NormalizedBlock)
    (hblk : isTextBlock blk = false)
    (hdeep : blockNoAdjacentTextsDeep blk = true)
    (hT1 : noAdjacentTexts T = true) (hT2 : listNoAdjacentTextsDeep T = true) :
    noAdjacentTexts (flushText [] cur ++ blk :: T) = true ∧
    listNoAdjacentTextsDeep (flushText [] cur ++ blk :: T) = true := by
  unfold flushText
  split
  · exact ⟨noAdj_cons_nontext blk hblk T hT1,
      by simp [listNoAdjacentTextsDeep, hdeep, hT2]⟩
  · constructor
    · simp only [List.nil_append, List.singleton_append]
      exact noAdj_text_cons (textBlock cur) blk hblk T (noAdj_cons_nontext blk hblk T hT1)
    · simp [listNoAdjacentTextsDeep, blockNoAdjacentTextsDeep, textBlock, hdeep, hT2,
        noAdjacentTexts]

/-- Inline-merge invariant of the scan: starting from an empty result array,
the output has no two adjacent Text blocks, at any depth. -/
theorem go_noAdjDeep (nodes : List MdNode) (result : List NormalizedBlock) (cur : String) :
    noAdjacentTexts (normalizeInlineGo nodes [] cur) = true ∧
    listNoAdjacentTextsDeep (normalizeInlineGo nodes [] cur) = true := by
  induction nodes, result, cur using normalizeInlineGo.induct with
  | case1 result cur =>
    unfold normalizeInlineGo flushText
    split
    · exact ⟨rfl, rfl⟩
    · exact ⟨rfl, rfl⟩
  | case2 v rest result cur ih =>
    rw [show normalizeInlineGo (MdNode.text v :: rest) [] cur =
      normalizeInlineGo rest [] (cur ++ v) from by simp [normalizeInlineGo]]
    exact ih
  | case3 v rest result cur ih =>
    rw [show normalizeInlineGo (MdNode.inlineCode v :: rest) [] cur =
      normalizeInlineGo rest (flushText [] cur ++ [inlineCodeBlock v]) "" from by
        simp [normalizeInlineGo]]
    rw [go_shift, List.append_assoc, List.singleton_append]
    exact seg_props _ _ _ rfl rfl ih.1 ih.2
  | case4 cs rest result cur ihc ih =>
    rw [show normalizeInlineGo (MdNode.strong cs :: rest) [] cur =
      normalizeInlineGo rest
        (flushText [] cur ++ [strongBlock (normalizeInlineGo cs [] "")]) "" from by
        simp [normalizeInlineGo]]
    rw [go_shift, List.append_assoc, List.singleton_append]
    exact seg_props _ _ _ rfl
      (by simp [blockNoAdjacentTextsDeep, strongBlock, ihc.1, ihc.2]) ih.1 ih.2
  | case5 cs rest result cur ihc ih =>
    rw [show normalizeInlineGo (MdNode.emphasis cs :: rest) [] cur =
      normalizeInlineGo rest
        (flushText [] cur ++ [emphasisBlock (normalizeInlineGo cs [] "")]) "" from by
        simp [normalizeInlineGo]]
    rw [go_shift, List.append_assoc, List.singleton_append]
    exact seg_props _ _ _ rfl
      (by simp [blockNoAdjacentTextsDeep, emphasisBlock, ihc.1, ihc.2]) ih.1 ih.2
  | case6 url title cs rest result cur ihc ih =>
    rw [show normalizeInlineGo (MdNode.link url title cs :: rest) [] cur =
      normalizeInlineGo rest
        (flushText [] cur ++ [linkBlock url title (normalizeInlineGo cs [] "")]) "" from by
        simp [normalizeInlineGo]]
    rw [go_shift, List.append_assoc, List.singleton_append]
    exact seg_props _ _ _ rfl
      (by simp [blockNoAdjacentTextsDeep, linkBlock, ihc.1, ihc.2]) ih.1 ih.2
  | case7 url alt title rest result cur ih =>
    rw [show normalizeInlineGo (MdNode.image url alt title :: rest) [] cur =
      normalizeInlineGo rest (flushText [] cur ++ [imageBlock url alt title]) "" from by
        simp [normalizeInlineGo]]
    rw [go_shift, List.append_assoc, List.singleton_append]
    exact seg_props _ _ _ rfl rfl ih.1 ih.2
  | case8 rest result cur ih =>
    rw [show normalizeInlineGo (MdNode.brk :: rest) [] cur =
      normalizeInlineGo rest [] (cur ++ "\n") from by simp [normalizeInlineGo]]
    exact ih
  | case9 head rest result cur h1 h2 h3 h4 h5 h6 h7 ih =>
    have hskip : isHandledInlineType head = false := by
      cases head
      case text v => exact absurd rfl (h1 v)
      case inlineCode v => exact absurd rfl (h2 v)
      case strong cs => exact absurd rfl (h3 cs)
      case emphasis cs => exact absurd rfl (h4 cs)
      case link url title cs => exact absurd rfl (h5 url title cs)
      case image url alt title => exact absurd rfl (h6 url alt title)
      case brk => exact absurd rfl h7
      all_goals rfl
    rw [inline_skip_step head hskip rest [] cur]
    exact ih

/-- Every top-level block emitted by normalizeNode has a block kind, never
the Text kind: Text blocks only ever appear inside inline children. -/
theorem normalizeNode_nonText (n : MdNode) :
    ∀ b ∈ normalizeNode n, isTextBlock b = false := by
  cases n <;>
    simp +decide [normalizeNode, isTextBlock, headingBlock, paragraphBlock, codeBlock,
      blockquoteBlock, listBlock, thematicBreakBlock, NormalizedBlock.type]

theorem normalizeNodes_nonText (l : List MdNode) :
    ∀ b ∈ normalizeNodes l, isTextBlock b = false := by
  induction l with
  | nil => simp [normalizeNodes]
  | cons n rest ih =>
    simp only [normalizeNodes, List.mem_append]
    rintro b (hb | hb)
    · exact normalizeNode_nonText n b hb
    · exact ih b hb

theorem normalizeListItems_nonText (l : List MdNode) :
    ∀ b ∈ normalizeListItems l, isTextBlock b = false := by
  induction l with
  | nil => simp [normalizeListItems]
  | cons item rest ih =>
    cases item <;>
      (simp only [normalizeListItems, List.mem_cons]
       rintro b (rfl | hb)
       · rfl
       · exact ih b hb)

theorem noAdj_of_all_nonText (bs : List NormalizedBlock)
    (h : ∀ b ∈ bs, isTextBlock b = false) : noAdjacentTexts bs = true := by
  induction bs with
  | nil => rfl
  | cons b rest ih =>
    cases rest with
    | nil => rfl
    | cons c cs =>
      simp [noAdjacentTexts, h b (by simp)]
      exact ih fun x hx => h x (by simp [hx])

theorem normalizeNodes_noAdj (l : List MdNode) :
    noAdjacentTexts (normalizeNodes l) = true :=
  noAdj_of_all_nonText _ (normalizeNodes_nonText l)

theorem normalizeListItems_noAdj (l : List MdNode) :
    noAdjacentTexts (normalizeListItems l) = true :=
  noAdj_of_all_nonText _ (normalizeListItems_nonText l)

theorem normalizeNode_noAdj (n : MdNode) :
    noAdjacentTexts (normalizeNode n) = true :=
  noAdj_of_all_nonText _ (normalizeNode_nonText n)

mutual

theorem normalizeNode_deepAdj (n : MdNode) :
    listNoAdjacentTextsDeep (normalizeNode n) = true := by
  cases n
  case heading depth cs =>
    have h := go_noAdjDeep cs [] ""
    simp [normalizeNode, listNoAdjacentTextsDeep, blockNoAdjacentTextsDeep, headingBlock,
      normalizeInlineContent, h.1, h.2]
  case paragraph cs =>
    have h := go_noAdjDeep cs [] ""
    simp [normalizeNode, listNoAdjacentTextsDeep, blockNoAdjacentTextsDeep, paragraphBlock,
      normalizeInlineContent, h.1, h.2]
  case code v lang =>
    simp [normalizeNode, listNoAdjacentTextsDeep, blockNoAdjacentTextsDeep, codeBlock,
      noAdjacentTexts]
  case blockquote cs =>
    simp [normalizeNode, listNoAdjacentTextsDeep, blockNoAdjacentTextsDeep,
      blockquoteBlock, normalizeNodes_deepAdj cs, normalizeNodes_noAdj cs]
  case list ordered startN items =>
    simp [normalizeNode, listNoAdjacentTextsDeep, blockNoAdjacentTextsDeep, listBlock,
      normalizeListItems_deepAdj items, normalizeListItems_noAdj items]
  case thematicBreak =>
    simp [normalizeNode, listNoAdjacentTextsDeep, blockNoAdjacentTextsDeep,
      thematicBreakBlock, noAdjacentTexts]
  all_goals simp [normalizeNode, listNoAdjacentTextsDeep]

theorem normalizeListItems_deepAdj (l : List MdNode) :
    listNoAdjacentTextsDeep (normalizeListItems l) = true := by
  cases l with
  | nil => rfl
  | cons item rest =>
    cases item
    case listItem depth checked cs =>
      simp [normalizeListItems, listNoAdjacentTextsDeep, blockNoAdjacentTextsDeep,
        listItemBlock, normalizeNodes_deepAdj cs, normalizeNodes_noAdj cs,
        normalizeListItems_deepAdj rest]
    all_goals
      simp [normalizeListItems, listNoAdjacentTextsDeep, blockNoAdjacentTextsDeep,
        listItemBlock, noAdjacentTexts, normalizeListItems_deepAdj rest]

theorem normalizeNodes_deepAdj (l : List MdNode) :
    listNoAdjacentTextsDeep (normalizeNodes l) = true := by
  cases l with
  | nil => rfl
  | cons n rest =>
    simp [normalizeNodes, listDeep_append, normalizeNode_deepAdj n,
      normalizeNodes_deepAdj rest]

end

/-- C3: for every syntax tree, the normalized output never contains two
adjacent sibling Text blocks at the same nesting level; consecutive plain
text (and explicit line breaks) merge into one Text block and the pending
text is flushed before every non-text inline construct. -/
theorem claim3_theorem (node : MdNode) :
    forestNoAdjacentTextsDeep (normalizeAST node) = true := by
  cases node <;>
    simp [normalizeAST, forestNoAdjacentTextsDeep, normalizeNode_deepAdj,
      normalizeNode_noAdj, normalizeNodes_deepAdj, normalizeNodes_noAdj]

theorem listNonempty_append (xs ys : List NormalizedBlock) :
    listTextsNonempty (xs ++ ys) = (listTextsNonempty xs && listTextsNonempty ys) := by
  induction xs with
  | nil => simp [listTextsNonempty]
  | cons b rest ih => simp [listTextsNonempty, ih, Bool.and_assoc]

/-- The flush step never pushes an empty Text block: an empty accumulator is
falsy and skipped. -/
theorem flushText_nonempty (result : List NormalizedBlock) (cur : String)
    (h : listTextsNonempty result = true) :
    listTextsNonempty (flushText result cur) = true := by
  unfold flushText
  split
  · exact h
  · rename_i hcur
    simp [listNonempty_append, h, listTextsNonempty, blockTextsNonempty, textBlock,
      bne_iff_ne, hcur]

/-- Non-empty-Text invariant of the inline scan, for any starting result
array that already satisfies it. -/
theorem go_nonempty (nodes : List MdNode) (result : List NormalizedBlock) (cur : String)
    (h : listTextsNonempty result = true) :
    listTextsNonempty (normalizeInlineGo nodes result cur) = true := by
  induction nodes, result, cur using normalizeInlineGo.induct with
  | case1 result cur =>
    rw [show normalizeInlineGo [] result cur = flushText result cur from by
      simp [normalizeInlineGo]]
    exact flushText_nonempty result cur h
  | case2 v rest result cur ih =>
    rw [show normalizeInlineGo (MdNode.text v :: rest) result cur =
      normalizeInlineGo rest result (cur ++ v) from by simp [normalizeInlineGo]]
    exact ih h
  | case3 v rest result cur ih =>
    rw [show normalizeInlineGo (MdNode.inlineCode v :: rest) result cur =
      normalizeInlineGo rest (flushText result cur ++ [inlineCodeBlock v]) "" from by
        simp [normalizeInlineGo]]
    exact ih (by
      simp +decide [listNonempty_append, flushText_nonempty result cur h,
        listTextsNonempty, blockTextsNonempty, inlineCodeBlock])
  | case4 cs rest result cur ihc ih =>
    rw [show normalizeInlineGo (MdNode.strong cs :: rest) result cur =
      normalizeInlineGo rest
        (flushText result cur ++ [strongBlock (normalizeInlineGo cs [] "")]) "" from by
        simp [normalizeInlineGo]]
    exact ih (by
      simp +decide [listNonempty_append, flushText_nonempty result cur h,
        listTextsNonempty, blockTextsNonempty, strongBlock, ihc rfl])
  | case5 cs rest result cur ihc ih =>
    rw [show normalizeInlineGo (MdNode.emphasis cs :: rest) result cur =
      normalizeInlineGo rest
        (flushText result cur ++ [emphasisBlock (normalizeInlineGo cs [] "")]) "" from by
        simp [normalizeInlineGo]]
    exact ih (by
      simp +decide [listNonempty_append, flushText_nonempty result cur h,
        listTextsNonempty, blockTextsNonempty, emphasisBlock, ihc rfl])
  | case6 url title cs rest result cur ihc ih =>
    rw [show normalizeInlineGo (MdNode.link url title cs :: rest) result cur =
      normalizeInlineGo rest
        (flushText result cur ++ [linkBlock url title (normalizeInlineGo cs [] "")]) ""
      from by simp [normalizeInlineGo]]
    exact ih (by
      simp +decide [listNonempty_append, flushText_nonempty result cur h,
        listTextsNonempty, blockTextsNonempty, linkBlock, ihc rfl])
  | case7 url alt title rest result cur ih =>
    rw [show normalizeInlineGo (MdNode.image url alt title :: rest) result cur =
      normalizeInlineGo rest (flushText result cur ++ [imageBlock url alt title]) ""
      from by simp [normalizeInlineGo]]
    exact ih (by
      simp +decide [listNonempty_append, flushText_nonempty result cur h,
        listTextsNonempty, blockTextsNonempty, imageBlock])
  | case8 rest result cur ih =>
    rw [show normalizeInlineGo (MdNode.brk :: rest) result cur =
      normalizeInlineGo rest result (cur ++ "\n") from by simp [normalizeInlineGo]]
    exact ih h
  | case9 head rest result cur h1 h2 h3 h4 h5 h6 h7 ih =>
    have hskip : isHandledInlineType head = false := by
      cases head
      case text v => exact absurd rfl (h1 v)
      case inlineCode v => exact absurd rfl (h2 v)
      case strong cs => exact absurd rfl (h3 cs)
      case emphasis cs => exact absurd rfl (h4 cs)
      case link url title cs => exact absurd rfl (h5 url title cs)
      case image url alt title => exact absurd rfl (h6 url alt title)
      case brk => exact absurd rfl h7
      all_goals rfl
    rw [inline_skip_step head hskip rest result cur]
    exact ih h

mutual

theorem normalizeNode_nonemptyDeep (n : MdNode) :
    listTextsNonempty (normalizeNode n) = true := by
  cases n
  case heading depth cs =>
    simp +decide [normalizeNode, listTextsNonempty, blockTextsNonempty, headingBlock,
      normalizeInlineContent, go_nonempty cs [] "" rfl]
  case paragraph cs =>
    simp +decide [normalizeNode, listTextsNonempty, blockTextsNonempty, paragraphBlock,
      normalizeInlineContent, go_nonempty cs [] "" rfl]
  case code v lang =>
    simp +decide [normalizeNode, listTextsNonempty, blockTextsNonempty, codeBlock]
  case blockquote cs =>
    simp +decide [normalizeNode, listTextsNonempty, blockTextsNonempty, blockquoteBlock,
      normalizeNodes_nonempty cs]
  case list ordered startN items =>
    simp +decide [normalizeNode, listTextsNonempty, blockTextsNonempty, listBlock,
      normalizeListItems_nonempty items]
  case thematicBreak =>
    simp +decide [normalizeNode, listTextsNonempty, blockTextsNonempty,
      thematicBreakBlock]
  all_goals simp [normalizeNode, listTextsNonempty]

theorem normalizeListItems_nonempty (l : List MdNode) :
    listTextsNonempty (normalizeListItems l) = true := by
  cases l with
  | nil => rfl
  | cons item rest =>
    cases item
    case listItem depth checked cs =>
      simp +decide [normalizeListItems, listTextsNonempty, blockTextsNonempty,
        listItemBlock, normalizeNodes_nonempty cs, normalizeListItems_nonempty rest]
    all_goals
      simp +decide [normalizeListItems, listTextsNonempty, blockTextsNonempty,
        listItemBlock, normalizeListItems_nonempty rest]

theorem normalizeNodes_nonempty (l : List MdNode) :
    listTextsNonempty (normalizeNodes l) = true := by
  cases l with
  | nil => rfl
  | cons n rest =>
    simp [normalizeNodes, listNonempty_append, normalizeNode_nonemptyDeep n,
      normalizeNodes_nonempty rest]

end

/-- C10: every Text block anywhere in the normalized forest has non-empty
content: the pending-text accumulator is only flushed as a Text block when
it is a non-empty string. -/
theorem claim10_theorem (node : MdNode) :
    listTextsNonempty (normalizeAST node) = true := by
  cases node <;>
    simp [normalizeAST, normalizeNode_nonemptyDeep, normalizeNodes_nonempty]

end MdToImage
